import Mathlib

/-!
Shallow embedding of the anti-air game engine (`src/main.cpp`) and proofs of
the specified properties.

Conventions of the embedding:
* pthread critical sections become atomic pure functions on the shared data
  they guard (the hostile list, the rocket list, the battery slot vector);
* `std::vector<Enemy>` / `std::vector<Rocket>` / `std::vector<bool>` become
  Lean lists; in-place scans with `break` become structural recursion that
  stops at the first match, exactly as the C++ loops do;
* the monitor counters (`destroyedEnemies`, `groundHits`, `spawnedEnemies`)
  become `Nat` fields threaded through the state (they are `atomic<int>`
  starting at 0 and only ever incremented, so they are non-negative and C++
  `int` division agrees with `Nat` division on them);
* interference from other threads during a released-lock wait is modelled by
  an arbitrary environment function `env` applied at the suspension point.
-/

/-- Aim headings (`enum Aim`, main.cpp:16). -/
inductive Aim
  | up
  | upleft
  | upright
  | left
  | right
deriving DecidableEq, Repr

/-- `struct Enemy` (main.cpp:18-23); the `pthread_t tid` handle carries no
game state and is dropped. -/
structure Enemy where
  id : Int
  x : Int
  y : Int
  alive : Bool
deriving DecidableEq, Repr

/-- `struct Rocket` (main.cpp:25-31); the `pthread_t tid` handle is dropped. -/
structure Rocket where
  id : Int
  x : Int
  y : Int
  aim : Aim
  active : Bool
deriving DecidableEq, Repr

/-- `aimToStep` (main.cpp:150-159): per-tick displacement of a rocket. -/
def aimToStep : Aim → Int × Int
  | .up => (0, -1)
  | .upleft => (-1, -1)
  | .upright => (1, -1)
  | .left => (-1, 0)
  | .right => (1, 0)

/-! ## Battery (`launchers : std::vector<bool>`) -/

/-- The fire scan of `playerControllerFn` (main.cpp:376-379): the first index
`i` with `launchers[i] == true`, scanning from index 0 upward. -/
def findLoaded : List Bool → Option Nat
  | [] => none
  | b :: bs => if b then some 0 else (findLoaded bs).map (· + 1)

/-- The battery part of a fire event (main.cpp:375-386): consume the first
loaded slot (`launchers[chosen] = false`); if none is loaded the battery is
left unchanged and the fire reports no-ammo (`none`). -/
def tryFire (ls : List Bool) : Option Nat × List Bool :=
  match findLoaded ls with
  | some i => (some i, ls.set i false)
  | none => (none, ls)

/-- A full fire event (main.cpp:373-420): on success the consumed battery is
paired with the rocket list extended by exactly one new rocket spawned at the
launch point (`x = W/2`, `y = H-3`, main.cpp:396-397); on no-ammo both the
battery and the rocket list are unchanged and no rocket is created. -/
def fireEvent (aim : Aim) (W H : Int) (nextId : Int) (ls : List Bool)
    (rs : List Rocket) : List Bool × List Rocket :=
  match findLoaded ls with
  | some i => (ls.set i false, rs ++ [⟨nextId, W / 2, H - 3, aim, true⟩])
  | none => (ls, rs)

/-- Initial battery state (main.cpp:489-490): `launchers.assign(k, true)`. -/
def initialBattery (k : Nat) : List Bool := List.replicate k true

/-! ## Match controller tick (main loop, main.cpp:503-553) -/

/-- Terminal match outcomes. -/
inductive MatchOutcome
  | win
  | lose
deriving DecidableEq, Repr

/-- One evaluation of the termination conditions in the main loop
(main.cpp:507-550), with `destroyed` and `ground` the values read once at the
top of the tick (main.cpp:508-509).  Branches in source order: the win check
`destroyed >= (m+1)/2`, then the lose check `ground > m/2`, then the
exhaustion branch (spawning done and no enemy alive) which re-checks the win
threshold and otherwise declares a loss.  `none` means the tick declared no
outcome and the loop continues. -/
def tickDecision (m destroyed ground : Nat) (spawnDone anyAlive : Bool) :
    Option MatchOutcome :=
  if (m + 1) / 2 ≤ destroyed then some .win
  else if m / 2 < ground then some .lose
  else if spawnDone && !anyAlive then
    if (m + 1) / 2 ≤ destroyed then some .win else some .lose
  else none

/-! ## Hostile-list critical sections -/

/-- The collision critical section of `rocketThreadFn` (main.cpp:194-204):
scan the hostile list in order for the first entry that is alive and sits at
the rocket's cell; clear its aliveness and stop.  Returns the `hit` flag, the
updated list, and the increment applied to `destroyedEnemies`. -/
def collideScan (rx ry : Int) : List Enemy → Bool × List Enemy × Nat
  | [] => (false, [], 0)
  | e :: es =>
    if e.alive && e.x == rx && e.y == ry then
      (true, { e with alive := false } :: es, 1)
    else
      let r := collideScan rx ry es
      (r.1, e :: r.2.1, r.2.2)

/-- The position write-back of `enemyThreadFn` (main.cpp:245-252): set the
`y` of the first list entry with the given id and stop. -/
def updateEnemyY (eid : Int) (y : Int) : List Enemy → List Enemy
  | [] => []
  | e :: es =>
    if e.id == eid then { e with y := y } :: es
    else e :: updateEnemyY eid y es

/-- The ground-impact critical section of `enemyThreadFn` (main.cpp:256-264):
scan for the first entry with the given id that is still alive; clear its
aliveness and stop.  Returns the updated list and the increment applied to
`groundHits`. -/
def groundScan (eid : Int) : List Enemy → List Enemy × Nat
  | [] => ([], 0)
  | e :: es =>
    if e.id == eid && e.alive then ({ e with alive := false } :: es, 1)
    else
      let r := groundScan eid es
      (e :: r.1, r.2)

/-- Number of hostile records in a terminal state (aliveness cleared). -/
def deadCount (es : List Enemy) : Nat := (es.filter (fun e => !e.alive)).length

/-- Number of live hostile records at a given cell. -/
def liveAtCell (rx ry : Int) (es : List Enemy) : Nat :=
  (es.filter (fun e => e.alive && e.x == rx && e.y == ry)).length

/-! ## Rocket tick outcome (`rocketThreadFn` loop body, main.cpp:178-217) -/

/-- Fate of one rocket tick after the move. -/
inductive RocketFate
  | hit
  | offscreen
  | fly
deriving DecidableEq, Repr

/-- One iteration of the `rocketThreadFn` loop after the position update
(main.cpp:193-216): run the collision critical section at the new cell
`(rx, ry)`; if it reported a hit the rocket terminates (`break`,
main.cpp:206-209), else if the new cell is out of bounds it terminates
(main.cpp:212-214), else it keeps flying. -/
def rocketTick (W H rx ry : Int) (es : List Enemy) :
    RocketFate × List Enemy × Nat :=
  let r := collideScan rx ry es
  if r.1 then (.hit, r.2.1, r.2.2)
  else if rx < 1 || W - 1 ≤ rx || ry < 1 || H - 2 ≤ ry then
    (.offscreen, r.2.1, r.2.2)
  else (.fly, r.2.1, r.2.2)

/-! ## Match-state trace system

The shared state guarded by `enemyListMutex` together with the counters.
Each constructor of `MatchStep` is one critical section of the source; a
match execution is a finite interleaving (trace) of such atomic steps. -/

/-- The shared hostile-side match state: the `enemies` vector and the three
counters (main.cpp:48, 62-64). -/
structure MatchState where
  enemies : List Enemy
  destroyed : Nat
  groundHits : Nat
  spawned : Nat
deriving DecidableEq, Repr

/-- The atomic critical sections that mutate the hostile list or its
counters:
* `spawn` — `enemySpawnerFn` inserting one enemy with `y = 1`, `alive = true`
  and the next sequential id, then `spawnedEnemies++` (main.cpp:277-299);
* `rocketHit` — the collision section of `rocketThreadFn` (main.cpp:194-204);
* `enemyMove` — the write-back of `enemyThreadFn` (main.cpp:245-252);
* `enemyGround` — the ground section of `enemyThreadFn` (main.cpp:256-264). -/
inductive MatchStep
  | spawn (x : Int)
  | rocketHit (rx ry : Int)
  | enemyMove (eid : Int) (y : Int)
  | enemyGround (eid : Int)
deriving DecidableEq, Repr

/-- Apply one atomic critical section to the shared state. -/
def applyStep (s : MatchState) : MatchStep → MatchState
  | .spawn x =>
    { s with
      enemies := s.enemies ++ [⟨Int.ofNat s.spawned + 1, x, 1, true⟩],
      spawned := s.spawned + 1 }
  | .rocketHit rx ry =>
    let r := collideScan rx ry s.enemies
    { s with enemies := r.2.1, destroyed := s.destroyed + r.2.2 }
  | .enemyMove eid y => { s with enemies := updateEnemyY eid y s.enemies }
  | .enemyGround eid =>
    let r := groundScan eid s.enemies
    { s with enemies := r.1, groundHits := s.groundHits + r.2 }

/-- Run a trace of atomic steps from a state. -/
def runTrace (s : MatchState) : List MatchStep → MatchState
  | [] => s
  | st :: tr => runTrace (applyStep s st) tr

/-- State at match start: empty hostile list, all counters zero
(main.cpp:48, 62-64). -/
def matchStart : MatchState := ⟨[], 0, 0, 0⟩

/-- Number of spawn steps in a trace.  The `for (i = 0; i < m && ...)` loop
of `enemySpawnerFn` (main.cpp:277) performs at most `m` of them in a match. -/
def countSpawns : List MatchStep → Nat
  | [] => 0
  | .spawn _ :: tr => countSpawns tr + 1
  | _ :: tr => countSpawns tr

/-- The aliveness flag of the hostile record at list position `j`, if any.
Spawns only append, so a record keeps its position for the whole match. -/
def aliveFlag (es : List Enemy) (j : Nat) : Option Bool :=
  (es.get? j).map Enemy.alive

/-! ## Reload loop (`reloadThreadFn`, main.cpp:308-337)

The inner refill loop (main.cpp:321-333) releases the battery lock for the
per-slot delay; whatever the other threads do to the battery during that
window is modelled by an arbitrary `env : Nat → List Bool → List Bool`
applied at the suspension point (its first argument is the slot index being
reloaded, so interference may differ from wait to wait). -/

/-- One recorded visit of the refill loop to a slot index: the battery as
scanned under the lock, the battery after the released-lock wait (`none` when
the slot was loaded, in which case the loop does not wait), and the battery
the iteration leaves behind. -/
structure ReloadVisit where
  idx : Nat
  scanned : List Bool
  waited : Option (List Bool)
  result : List Bool
deriving DecidableEq, Repr

/-- The refill loop of `reloadThreadFn` (main.cpp:321-333), from slot `i`
for `n` more indices: if `launchers[i]` is loaded, move on; otherwise drop
the lock, wait (environment interference `env i`), re-acquire, and set the
slot loaded only if it is still empty.  Returns the final battery and the
trace of visits. -/
def reloadLoop (env : Nat → List Bool → List Bool) :
    Nat → Nat → List Bool → List Bool × List ReloadVisit
  | _, 0, ls => (ls, [])
  | i, n + 1, ls =>
    if ls.getD i true then
      let r := reloadLoop env (i + 1) n ls
      (r.1, ⟨i, ls, none, ls⟩ :: r.2)
    else
      let lw := env i ls
      let ls' := if lw.getD i true then lw else lw.set i true
      let r := reloadLoop env (i + 1) n ls'
      (r.1, ⟨i, ls, some lw, ls'⟩ :: r.2)

/-! ## Hostile actor (`enemyThreadFn`, main.cpp:235-270)

The thread works on a private copy `e` of its record (main.cpp:236); the loop
condition reads `e.alive` of that private copy, which nothing in the loop
ever assigns, so a kill recorded in the registry is never observed by the
loop.  `fuel` bounds the number of iterations (the loop needs exactly
`H - 2 - y` of them to reach the ground row). -/

/-- The first hostile record with the given id, if any (both the write-back
and the ground scan act on the first such record). -/
def findEnemy (eid : Int) (es : List Enemy) : Option Enemy :=
  es.find? (fun e => e.id == eid)

/-- The loop of `enemyThreadFn` (main.cpp:239-267) run to completion from
private height `y`, acting on the shared list `es` and the `groundHits`
counter `g`: each iteration increments the private `y`, writes it back, and
on reaching the ground row runs the ground critical section and exits.  The
private aliveness copy stays `true` throughout (no assignment to it exists),
so it is not a parameter. -/
def enemyRun (H eid : Int) : Nat → Int → List Enemy → Nat → List Enemy × Nat
  | 0, _, es, g => (es, g)
  | fuel + 1, y, es, g =>
    let y' := y + 1
    let es' := updateEnemyY eid y' es
    if H - 2 ≤ y' then
      let r := groundScan eid es'
      (r.1, g + r.2)
    else enemyRun H eid fuel y' es' g

/-! ## Rocket-list operations (`rockets : std::vector<Rocket>`) -/

/-- The rocket position write-back of `rocketThreadFn` (main.cpp:184-191):
set `x`, `y` of the first entry with the given id and stop. -/
def updateRocketPos (rid : Int) (x y : Int) : List Rocket → List Rocket
  | [] => []
  | r :: rs =>
    if r.id == rid then { r with x := x, y := y } :: rs
    else r :: updateRocketPos rid x y rs

/-- The exit section of `rocketThreadFn` (main.cpp:220-227): mark the first
entry with the given id inactive and stop; the record itself stays in the
list. -/
def markRocketInactive (rid : Int) : List Rocket → List Rocket
  | [] => []
  | r :: rs =>
    if r.id == rid then { r with active := false } :: rs
    else r :: markRocketInactive rid rs

/-- `removeRocketById` (main.cpp:162-166): erase every entry with the given
id.  The function has no call site anywhere in the source, so no trace of a
match ever contains it; it is embedded only to contrast its effect with
`markRocketInactive`. -/
def removeRocketById (rid : Int) (rs : List Rocket) : List Rocket :=
  rs.filter (fun r => !(r.id == rid))

/-- The operations actually performed on the rocket list during a match, one
constructor per call site: the `push_back` of a fire event (main.cpp:401),
the position write-back (main.cpp:184-191), and the inactive marking
(main.cpp:220-227).  (The tid store at main.cpp:411 touches no modelled
field.) -/
inductive RocketOp
  | fire (r : Rocket)
  | updatePos (rid : Int) (x y : Int)
  | deactivate (rid : Int)
deriving DecidableEq, Repr

/-- Apply one rocket-list operation. -/
def applyRocketOp (rs : List Rocket) : RocketOp → List Rocket
  | .fire r => rs ++ [r]
  | .updatePos rid x y => updateRocketPos rid x y rs
  | .deactivate rid => markRocketInactive rid rs

/-- Run a trace of rocket-list operations. -/
def runRocketOps (rs : List Rocket) : List RocketOp → List Rocket
  | [] => rs
  | op :: ops => runRocketOps (applyRocketOp rs op) ops

/-- Number of successful fire events in a rocket-list trace. -/
def countFires : List RocketOp → Nat
  | [] => 0
  | .fire _ :: ops => countFires ops + 1
  | _ :: ops => countFires ops

/-! ## Battery lemmas -/

/-- `findLoaded` returns `none` exactly when every slot is empty. -/
theorem findLoaded_eq_none_iff (ls : List Bool) :
    findLoaded ls = none ↔ ∀ b ∈ ls, b = false := by
  induction ls with
  | nil => simp [findLoaded]
  | cons b bs ih => cases b <;> simp [findLoaded, ih]

/-- `findLoaded` returns the lowest loaded index: that slot is loaded and all
slots below it are empty. -/
theorem findLoaded_spec (ls : List Bool) (i : Nat) (h : findLoaded ls = some i) :
    ls.getD i false = true ∧ ∀ j, j < i → ls.getD j false = false := by
  induction ls generalizing i with
  | nil => simp [findLoaded] at h
  | cons b bs ih =>
    cases b with
    | true =>
      simp [findLoaded] at h
      subst h
      simp
    | false =>
      simp [findLoaded] at h
      obtain ⟨i', hi', rfl⟩ := h
      obtain ⟨h1, h2⟩ := ih i' hi'
      refine ⟨by simpa using h1, ?_⟩
      intro j hj
      cases j with
      | zero => rfl
      | succ j' => simpa using h2 j' (by omega)

/-! ## Claim C4 — fire consumes the first loaded slot, no-ammo is a no-op -/

/-- C4: a fire event consumes exactly the lowest-index loaded slot (that slot
is loaded, all lower slots are empty) and appends exactly one new rocket;
when no slot is loaded it returns no-ammo, leaves every slot unchanged and
creates no rocket; concretely, with `k = 2` and both slots loaded two
consecutive fires succeed (leaving zero loaded slots) and a third fire
returns no-ammo. -/
theorem fire_consumes_first_loaded :
    (∀ ls, findLoaded ls = none ↔ ∀ b ∈ ls, b = false) ∧
    (∀ ls i, findLoaded ls = some i →
      ls.getD i false = true ∧ ∀ j, j < i → ls.getD j false = false) ∧
    (∀ aim W H nid ls rs, findLoaded ls = none →
      fireEvent aim W H nid ls rs = (ls, rs)) ∧
    (∀ aim W H nid ls rs i, findLoaded ls = some i →
      fireEvent aim W H nid ls rs =
        (ls.set i false, rs ++ [⟨nid, W / 2, H - 3, aim, true⟩])) ∧
    tryFire [true, true] = (some 0, [false, true]) ∧
    tryFire [false, true] = (some 1, [false, false]) ∧
    tryFire [false, false] = (none, [false, false]) := by
  refine ⟨findLoaded_eq_none_iff, findLoaded_spec, ?_, ?_, by decide, by decide,
    by decide⟩
  · intro aim W H nid ls rs h
    simp [fireEvent, h]
  · intro aim W H nid ls rs i h
    simp [fireEvent, h]

/-- Witness for C4: firing with slot 0 empty and slot 1 loaded consumes
slot 1 and creates one rocket. -/
theorem fire_consumes_first_loaded_witness :
    fireEvent .up 80 24 1 [false, true] [] =
      ([false, true].set 1 false, [] ++ [⟨1, 80 / 2, 24 - 3, .up, true⟩]) :=
  fire_consumes_first_loaded.2.2.2.1 .up 80 24 1 [false, true] [] 1 (by decide)

/-! ## Claim C8 — the battery starts with every slot loaded -/

/-- C8: at match start every one of the `k` battery slots is loaded, so the
first fire of a match finds slot 0 loaded and consumes it. -/
theorem battery_starts_full :
    (∀ k i, i < k → (initialBattery k).getD i false = true) ∧
    (∀ k, 0 < k →
      findLoaded (initialBattery k) = some 0 ∧
      tryFire (initialBattery k) = (some 0, (initialBattery k).set 0 false)) := by
  constructor
  · intro k i h
    induction k generalizing i with
    | zero => omega
    | succ n ih =>
      cases i with
      | zero => rfl
      | succ i' =>
        simpa [initialBattery, List.replicate_succ] using ih i' (by omega)
  · intro k hk
    obtain ⟨n, rfl⟩ : ∃ n, k = n + 1 := ⟨k - 1, by omega⟩
    simp [initialBattery, List.replicate_succ, findLoaded, tryFire]

/-- Witness for C8: with `k = 3` (Easy preset) slot 1 starts loaded and the
first fire consumes slot 0. -/
theorem battery_starts_full_witness :
    (initialBattery 3).getD 1 false = true ∧
    tryFire (initialBattery 3) = (some 0, (initialBattery 3).set 0 false) :=
  ⟨battery_starts_full.1 3 1 (by decide), (battery_starts_full.2 3 (by decide)).2⟩

/-! ## Claim C2 — win is checked before lose, outcomes exclusive -/

/-- C2: a controller tick declares win exactly when the destroyed count has
reached `(m+1)/2`; in particular when the win and lose thresholds hold
simultaneously the declared outcome is win (the win check is evaluated
first), and no tick can declare both outcomes. -/
theorem tick_win_priority :
    ∀ m destroyed ground sd aa,
      (tickDecision m destroyed ground sd aa = some .win ↔
        (m + 1) / 2 ≤ destroyed) ∧
      ((m + 1) / 2 ≤ destroyed → m / 2 < ground →
        tickDecision m destroyed ground sd aa = some .win) ∧
      ¬(tickDecision m destroyed ground sd aa = some .win ∧
        tickDecision m destroyed ground sd aa = some .lose) := by
  intro m d g sd aa
  unfold tickDecision
  by_cases h1 : (m + 1) / 2 ≤ d <;> by_cases h2 : m / 2 < g <;>
    by_cases h3 : (sd && !aa) = true <;> simp [h1, h2, h3]

/-- Witness for C2: with `m = 4`, `destroyed = 2`, `ground = 3` both
thresholds hold and the tick declares win. -/
theorem tick_win_priority_witness :
    tickDecision 4 2 3 true true = some .win :=
  (tick_win_priority 4 2 3 true true).2.1 (by decide) (by decide)

/-! ## Claim C3 — pool exhaustion forces a terminal decision -/

/-- C3: once spawning is done and no hostile is alive, the tick always
declares an outcome: win exactly when the destroyed count has reached
`(m+1)/2`, and lose otherwise — in particular lose is declared even when the
ground-hit count does not exceed `m/2`. -/
theorem tick_exhaustion_forces_decision :
    ∀ m destroyed ground,
      (tickDecision m destroyed ground true false =
        if (m + 1) / 2 ≤ destroyed then some .win else some .lose) ∧
      (destroyed < (m + 1) / 2 → ground ≤ m / 2 →
        tickDecision m destroyed ground true false = some .lose) ∧
      tickDecision m destroyed ground true false ≠ none := by
  intro m d g
  unfold tickDecision
  by_cases h1 : (m + 1) / 2 ≤ d <;> by_cases h2 : m / 2 < g <;> simp [h1, h2]

/-- Witness for C3: with `m = 4`, `destroyed = 1`, `ground = 0` neither
threshold holds, yet the exhaustion branch declares lose. -/
theorem tick_exhaustion_forces_decision_witness :
    tickDecision 4 1 0 true false = some .lose :=
  (tick_exhaustion_forces_decision 4 1 0).2.1 (by decide) (by decide)

/-! ## Collision and ground-scan lemmas -/

/-- The collision scan reports a hit exactly when some live hostile occupies
the rocket's cell. -/
theorem collideScan_hit_iff (rx ry : Int) (es : List Enemy) :
    (collideScan rx ry es).1 = true ↔ 0 < liveAtCell rx ry es := by
  induction es with
  | nil => simp [collideScan, liveAtCell]
  | cons e es ih =>
    by_cases h : (e.alive && e.x == rx && e.y == ry) = true <;>
      simp [collideScan, liveAtCell, List.filter_cons, h, ih]

/-- The `destroyedEnemies` increment of the collision scan is 1 on a hit and
0 otherwise. -/
theorem collideScan_inc (rx ry : Int) (es : List Enemy) :
    (collideScan rx ry es).2.2 = if (collideScan rx ry es).1 then 1 else 0 := by
  induction es with
  | nil => simp [collideScan]
  | cons e es ih =>
    by_cases h : (e.alive && e.x == rx && e.y == ry) = true <;>
      simp [collideScan, h, ih]

/-- The collision scan preserves the length of the hostile list. -/
theorem collideScan_length (rx ry : Int) (es : List Enemy) :
    (collideScan rx ry es).2.1.length = es.length := by
  induction es with
  | nil => simp [collideScan]
  | cons e es ih =>
    by_cases h : (e.alive && e.x == rx && e.y == ry) = true <;>
      simp [collideScan, h, ih]

/-- Each collision scan grows the number of terminal (dead) records by
exactly its counter increment. -/
theorem collideScan_deadCount (rx ry : Int) (es : List Enemy) :
    deadCount (collideScan rx ry es).2.1 = deadCount es + (collideScan rx ry es).2.2 := by
  induction es with
  | nil => simp [collideScan, deadCount]
  | cons e es ih =>
    by_cases h : (e.alive && e.x == rx && e.y == ry) = true
    · have ha : e.alive = true := by
        simp only [Bool.and_eq_true] at h
        exact h.1.1
      have hcol : collideScan rx ry (e :: es) =
          (true, { e with alive := false } :: es, 1) := by
        simp only [collideScan, if_pos h]
      rw [hcol]
      simp [deadCount, List.filter_cons, ha]
    · have hcol : collideScan rx ry (e :: es) =
          ((collideScan rx ry es).1, e :: (collideScan rx ry es).2.1,
            (collideScan rx ry es).2.2) := by
        simp only [collideScan, if_neg h]
      rw [hcol]
      cases ha : e.alive <;>
        simp [deadCount, List.filter_cons, ha] at ih ⊢ <;> omega

/-- Each collision scan removes exactly its counter increment from the live
population of the scanned cell. -/
theorem collideScan_liveAtCell (rx ry : Int) (es : List Enemy) :
    liveAtCell rx ry (collideScan rx ry es).2.1 + (collideScan rx ry es).2.2 =
      liveAtCell rx ry es := by
  induction es with
  | nil => simp [collideScan, liveAtCell]
  | cons e es ih =>
    by_cases h : (e.alive && e.x == rx && e.y == ry) = true <;>
      simp [collideScan, liveAtCell, List.filter_cons, h] at ih ⊢ <;>
      omega

/-- Duplicate-hit no-op: when no live hostile occupies the cell the collision
scan reports no hit, changes nothing and counts nothing. -/
theorem collideScan_noLive (rx ry : Int) (es : List Enemy)
    (h : liveAtCell rx ry es = 0) : collideScan rx ry es = (false, es, 0) := by
  induction es with
  | nil => simp [collideScan]
  | cons e es ih =>
    by_cases hg : (e.alive && e.x == rx && e.y == ry) = true
    · simp [liveAtCell, List.filter_cons, hg] at h
    · have ht : liveAtCell rx ry es = 0 := by
        simpa [liveAtCell, List.filter_cons, hg] using h
      simp [collideScan, hg, ih ht]

/-- Ground-scan no-op: when every record with the actor's id is already dead
the ground scan changes nothing and counts nothing. -/
theorem groundScan_allDead (eid : Int) (es : List Enemy)
    (h : ∀ e ∈ es, e.id = eid → e.alive = false) : groundScan eid es = (es, 0) := by
  induction es with
  | nil => simp [groundScan]
  | cons e es ih =>
    have hg : (e.id == eid && e.alive) = false := by
      by_cases hid : e.id = eid
      · simp [hid, h e (by simp) hid]
      · simp [hid]
    have ht : ∀ e' ∈ es, e'.id = eid → e'.alive = false := fun e' he' =>
      h e' (by simp [he'])
    simp [groundScan, hg, ih ht]

/-- The ground scan preserves the length of the hostile list. -/
theorem groundScan_length (eid : Int) (es : List Enemy) :
    (groundScan eid es).1.length = es.length := by
  induction es with
  | nil => simp [groundScan]
  | cons e es ih =>
    by_cases h : (e.id == eid && e.alive) = true <;> simp [groundScan, h, ih]

/-- Each ground scan grows the number of terminal (dead) records by exactly
its counter increment. -/
theorem groundScan_deadCount (eid : Int) (es : List Enemy) :
    deadCount (groundScan eid es).1 = deadCount es + (groundScan eid es).2 := by
  induction es with
  | nil => simp [groundScan, deadCount]
  | cons e es ih =>
    by_cases h : (e.id == eid && e.alive) = true
    · have ha : e.alive = true := by
        simp only [Bool.and_eq_true] at h
        exact h.2
      have hgr : groundScan eid (e :: es) =
          ({ e with alive := false } :: es, 1) := by
        simp only [groundScan, if_pos h]
      rw [hgr]
      simp [deadCount, List.filter_cons, ha]
    · have hgr : groundScan eid (e :: es) =
          (e :: (groundScan eid es).1, (groundScan eid es).2) := by
        simp only [groundScan, if_neg h]
      rw [hgr]
      cases ha : e.alive <;>
        simp [deadCount, List.filter_cons, ha] at ih ⊢ <;> omega

/-- The position write-back preserves the length of the hostile list. -/
theorem updateEnemyY_length (eid y : Int) (es : List Enemy) :
    (updateEnemyY eid y es).length = es.length := by
  induction es with
  | nil => simp [updateEnemyY]
  | cons e es ih =>
    by_cases h : (e.id == eid) = true <;> simp [updateEnemyY, h, ih]

/-- The position write-back touches no aliveness flag, so the number of
terminal records is unchanged. -/
theorem updateEnemyY_deadCount (eid y : Int) (es : List Enemy) :
    deadCount (updateEnemyY eid y es) = deadCount es := by
  induction es with
  | nil => simp [updateEnemyY]
  | cons e es ih =>
    by_cases h : (e.id == eid) = true <;>
      simp [updateEnemyY, h, deadCount, List.filter_cons] at ih ⊢ <;>
      cases ha : e.alive <;> simp [ha] <;> omega

/-- `deadCount` distributes over append. -/
theorem deadCount_append (es1 es2 : List Enemy) :
    deadCount (es1 ++ es2) = deadCount es1 + deadCount es2 := by
  simp [deadCount, List.filter_append]

/-- At most every record is dead. -/
theorem deadCount_le_length (es : List Enemy) : deadCount es ≤ es.length :=
  List.length_filter_le _ _

/-! ## Aliveness is never restored -/

/-- A record already terminal at list position `j` stays terminal through a
collision scan. -/
theorem aliveFlag_collideScan (rx ry : Int) (es : List Enemy) (j : Nat)
    (h : aliveFlag es j = some false) :
    aliveFlag (collideScan rx ry es).2.1 j = some false := by
  induction es generalizing j with
  | nil => simp [aliveFlag] at h
  | cons e es ih =>
    by_cases hg : (e.alive && e.x == rx && e.y == ry) = true
    · have hcol : collideScan rx ry (e :: es) =
          (true, { e with alive := false } :: es, 1) := by
        simp only [collideScan, if_pos hg]
      rw [hcol]
      cases j with
      | zero => simp [aliveFlag]
      | succ j' => simpa [aliveFlag] using h
    · have hcol : collideScan rx ry (e :: es) =
          ((collideScan rx ry es).1, e :: (collideScan rx ry es).2.1,
            (collideScan rx ry es).2.2) := by
        simp only [collideScan, if_neg hg]
      rw [hcol]
      cases j with
      | zero => simpa [aliveFlag] using h
      | succ j' =>
        simp only [aliveFlag, List.get?_cons_succ] at h ⊢
        exact ih j' h

/-- A record already terminal at list position `j` stays terminal through a
position write-back. -/
theorem aliveFlag_updateEnemyY (eid y : Int) (es : List Enemy) (j : Nat)
    (h : aliveFlag es j = some false) :
    aliveFlag (updateEnemyY eid y es) j = some false := by
  induction es generalizing j with
  | nil => simp [aliveFlag] at h
  | cons e es ih =>
    by_cases hg : (e.id == eid) = true
    · have hupd : updateEnemyY eid y (e :: es) = { e with y := y } :: es := by
        simp only [updateEnemyY, if_pos hg]
      rw [hupd]
      cases j with
      | zero => simpa [aliveFlag] using h
      | succ j' => simpa [aliveFlag] using h
    · have hupd : updateEnemyY eid y (e :: es) = e :: updateEnemyY eid y es := by
        simp only [updateEnemyY, if_neg hg]
      rw [hupd]
      cases j with
      | zero => simpa [aliveFlag] using h
      | succ j' =>
        simp only [aliveFlag, List.get?_cons_succ] at h ⊢
        exact ih j' h

/-- A record already terminal at list position `j` stays terminal through a
ground scan. -/
theorem aliveFlag_groundScan (eid : Int) (es : List Enemy) (j : Nat)
    (h : aliveFlag es j = some false) :
    aliveFlag (groundScan eid es).1 j = some false := by
  induction es generalizing j with
  | nil => simp [aliveFlag] at h
  | cons e es ih =>
    by_cases hg : (e.id == eid && e.alive) = true
    · have hgr : groundScan eid (e :: es) =
          ({ e with alive := false } :: es, 1) := by
        simp only [groundScan, if_pos hg]
      rw [hgr]
      cases j with
      | zero => simp [aliveFlag]
      | succ j' => simpa [aliveFlag] using h
    · have hgr : groundScan eid (e :: es) =
          (e :: (groundScan eid es).1, (groundScan eid es).2) := by
        simp only [groundScan, if_neg hg]
      rw [hgr]
      cases j with
      | zero => simpa [aliveFlag] using h
      | succ j' =>
        simp only [aliveFlag, List.get?_cons_succ] at h ⊢
        exact ih j' h

/-- A record already terminal at list position `j` stays terminal when a
spawn appends a fresh record at the end. -/
theorem aliveFlag_append (es : List Enemy) (e' : Enemy) (j : Nat) (b : Bool)
    (h : aliveFlag es j = some b) : aliveFlag (es ++ [e']) j = some b := by
  induction es generalizing j with
  | nil => simp [aliveFlag] at h
  | cons e es ih =>
    cases j with
    | zero => simpa [aliveFlag] using h
    | succ j' =>
      simp only [aliveFlag, List.cons_append, List.get?_cons_succ] at h ⊢
      exact ih j' h

/-! ## Claim C1 — each hostile dies at most once, counted exactly once -/

/-- C1: a record whose aliveness is cleared stays cleared through every
atomic step of the match (the flag transitions `true → false` at most once);
a collision scan at a cell with no live hostile is a complete no-op (a
duplicate interceptor hit neither kills nor counts), a ground scan whose
record is already dead is a complete no-op; and when two interceptors reach
the cell of a single live hostile, the first scan kills it and counts one
destroy while the second scan is a no-op — the destroy is never counted
twice. -/
theorem hostile_killed_once :
    (∀ s st j, aliveFlag s.enemies j = some false →
      aliveFlag (applyStep s st).enemies j = some false) ∧
    (∀ rx ry es, liveAtCell rx ry es = 0 →
      collideScan rx ry es = (false, es, 0)) ∧
    (∀ eid es, (∀ e ∈ es, e.id = eid → e.alive = false) →
      groundScan eid es = (es, 0)) ∧
    (∀ rx ry es, liveAtCell rx ry es = 1 →
      (collideScan rx ry es).1 = true ∧ (collideScan rx ry es).2.2 = 1 ∧
      collideScan rx ry (collideScan rx ry es).2.1 =
        (false, (collideScan rx ry es).2.1, 0)) := by
  refine ⟨?_, collideScan_noLive, groundScan_allDead, ?_⟩
  · intro s st j h
    cases st with
    | spawn x => exact aliveFlag_append _ _ _ _ h
    | rocketHit rx ry => exact aliveFlag_collideScan rx ry _ _ h
    | enemyMove eid y => exact aliveFlag_updateEnemyY eid y _ _ h
    | enemyGround eid => exact aliveFlag_groundScan eid _ _ h
  · intro rx ry es h1
    have hhit : (collideScan rx ry es).1 = true :=
      (collideScan_hit_iff rx ry es).mpr (by omega)
    have hinc : (collideScan rx ry es).2.2 = 1 := by
      rw [collideScan_inc, hhit]
      rfl
    have hafter : liveAtCell rx ry (collideScan rx ry es).2.1 = 0 := by
      have := collideScan_liveAtCell rx ry es
      omega
    exact ⟨hhit, hinc, collideScan_noLive rx ry _ hafter⟩

/-- Witness for C1: one live hostile at cell `(5, 5)`; the first interceptor
scan kills and counts it, the second is a no-op. -/
theorem hostile_killed_once_witness :
    (collideScan 5 5 [⟨1, 5, 5, true⟩]).2.2 = 1 ∧
    collideScan 5 5 (collideScan 5 5 [⟨1, 5, 5, true⟩]).2.1 =
      (false, (collideScan 5 5 [⟨1, 5, 5, true⟩]).2.1, 0) :=
  ⟨(hostile_killed_once.2.2.2 5 5 [⟨1, 5, 5, true⟩] (by decide)).2.1,
   (hostile_killed_once.2.2.2 5 5 [⟨1, 5, 5, true⟩] (by decide)).2.2⟩

/-! ## Claim C5 — rocket termination on a position match

The claim states that a rocket tick terminates as a hit on finding *any*
hostile record at its cell, alive or dead.  The collision scan
(main.cpp:197) requires `e.alive` before comparing positions, so a record
that is already dead never matches: the rocket flies straight through the
cell.  The claim is refuted by the counterexample below; the amended
statement is that the tick terminates as a hit exactly when a *live* hostile
occupies the cell, in which case the kill always succeeds (check and kill
are one atomic section), so a hit termination coincides with a successful
kill. -/

/-- Counterexample to C5: a dead hostile sits exactly at the rocket's new
in-bounds cell `(5, 5)` (a position match exists), yet the tick reports
`fly` — the rocket does not terminate, no hit, no count. -/
theorem rocket_pass_through_dead_cell :
    (([⟨1, 5, 5, false⟩] : List Enemy).any fun e =>
      e.x == 5 && e.y == 5) = true ∧
    rocketTick 80 24 5 5 [⟨1, 5, 5, false⟩] =
      (.fly, [⟨1, 5, 5, false⟩], 0) := by
  decide

/-- C5 (amended): a rocket tick terminates as a hit exactly when some live
hostile occupies its new cell; the hit always comes with a successful kill
(increment 1); and at an in-bounds cell holding only dead records the rocket
keeps flying with nothing changed. -/
theorem rocket_hit_iff_live_target :
    ∀ W H rx ry es,
      ((rocketTick W H rx ry es).1 = .hit ↔ 0 < liveAtCell rx ry es) ∧
      ((rocketTick W H rx ry es).1 = .hit →
        (rocketTick W H rx ry es).2.2 = 1) ∧
      (liveAtCell rx ry es = 0 → 1 ≤ rx → rx < W - 1 → 1 ≤ ry → ry < H - 2 →
        rocketTick W H rx ry es = (.fly, es, 0)) := by
  intro W H rx ry es
  by_cases hh : (collideScan rx ry es).1 = true
  · have hfate : rocketTick W H rx ry es =
        (.hit, (collideScan rx ry es).2.1, (collideScan rx ry es).2.2) := by
      simp only [rocketTick, if_pos hh]
    have hinc : (collideScan rx ry es).2.2 = 1 := by
      rw [collideScan_inc, hh]
      rfl
    refine ⟨?_, fun _ => by rw [hfate]; exact hinc, ?_⟩
    · rw [hfate]
      simpa using (collideScan_hit_iff rx ry es).mp hh
    · intro h0
      rw [collideScan_hit_iff] at hh
      omega
  · have hnl : ¬ 0 < liveAtCell rx ry es := by
      rw [← collideScan_hit_iff]
      exact hh
    have hnothit : (rocketTick W H rx ry es).1 ≠ .hit := by
      simp only [rocketTick]
      rw [if_neg hh]
      split <;> simp
    refine ⟨?_, ?_, ?_⟩
    · exact ⟨fun hfate => absurd hfate hnothit, fun hl => absurd hl hnl⟩
    · intro hfate
      exact absurd hfate hnothit
    · intro h0 hx1 hx2 hy1 hy2
      have hcol : collideScan rx ry es = (false, es, 0) :=
        collideScan_noLive rx ry es h0
      have h1 : ¬ rx < 1 := by omega
      have h2 : ¬ W - 1 ≤ rx := by omega
      have h3 : ¬ ry < 1 := by omega
      have h4 : ¬ H - 2 ≤ ry := by omega
      simp [rocketTick, hcol, h1, h2, h3, h4]

/-- Witness for C5 (amended): one live hostile at the rocket's cell yields a
hit with a successful kill. -/
theorem rocket_hit_iff_live_target_witness :
    (rocketTick 80 24 5 5 [⟨1, 5, 5, true⟩]).2.2 = 1 :=
  (rocket_hit_iff_live_target 80 24 5 5 [⟨1, 5, 5, true⟩]).2.1 (by decide)

/-! ## Match invariant (claim C6) -/

/-- The inductive match invariant: the hostile list holds one record per
spawn, and the two terminal counters together count exactly the terminal
records. -/
def MatchInv (s : MatchState) : Prop :=
  s.enemies.length = s.spawned ∧
  s.destroyed + s.groundHits = deadCount s.enemies

/-- The invariant holds at match start. -/
theorem matchInv_start : MatchInv matchStart := ⟨rfl, rfl⟩

/-- Every atomic critical section preserves the match invariant. -/
theorem matchInv_applyStep (s : MatchState) (st : MatchStep) (h : MatchInv s) :
    MatchInv (applyStep s st) := by
  obtain ⟨hlen, hcnt⟩ := h
  cases st with
  | spawn x =>
    refine ⟨by simp [applyStep, hlen], ?_⟩
    simp [applyStep, deadCount_append, hcnt, deadCount]
  | rocketHit rx ry =>
    refine ⟨by simp [applyStep, collideScan_length, hlen], ?_⟩
    have := collideScan_deadCount rx ry s.enemies
    simp only [applyStep]
    omega
  | enemyMove eid y =>
    refine ⟨by simp [applyStep, updateEnemyY_length, hlen], ?_⟩
    have := updateEnemyY_deadCount eid y s.enemies
    simp only [applyStep]
    omega
  | enemyGround eid =>
    refine ⟨by simp [applyStep, groundScan_length, hlen], ?_⟩
    have := groundScan_deadCount eid s.enemies
    simp only [applyStep]
    omega

/-- Running a trace decomposes over append. -/
theorem runTrace_append (s : MatchState) (t1 t2 : List MatchStep) :
    runTrace s (t1 ++ t2) = runTrace (runTrace s t1) t2 := by
  induction t1 generalizing s with
  | nil => rfl
  | cons st t1 ih => simp [runTrace, ih]

/-- The invariant is preserved by whole traces. -/
theorem matchInv_runTrace (s : MatchState) (tr : List MatchStep)
    (h : MatchInv s) : MatchInv (runTrace s tr) := by
  induction tr generalizing s with
  | nil => exact h
  | cons st tr ih => exact ih _ (matchInv_applyStep s st h)

/-- `spawnedEnemies` counts exactly the spawn steps of the trace. -/
theorem runTrace_spawned (s : MatchState) (tr : List MatchStep) :
    (runTrace s tr).spawned = s.spawned + countSpawns tr := by
  induction tr generalizing s with
  | nil => simp [runTrace, countSpawns]
  | cons st tr ih =>
    cases st <;> simp [runTrace, countSpawns, applyStep, ih] <;> omega

/-- No atomic critical section ever decreases a counter. -/
theorem applyStep_mono (s : MatchState) (st : MatchStep) :
    s.destroyed ≤ (applyStep s st).destroyed ∧
    s.groundHits ≤ (applyStep s st).groundHits ∧
    s.spawned ≤ (applyStep s st).spawned := by
  cases st <;> simp only [applyStep] <;> omega

/-- No trace ever decreases a counter. -/
theorem runTrace_mono (s : MatchState) (tr : List MatchStep) :
    s.destroyed ≤ (runTrace s tr).destroyed ∧
    s.groundHits ≤ (runTrace s tr).groundHits ∧
    s.spawned ≤ (runTrace s tr).spawned := by
  induction tr generalizing s with
  | nil => exact ⟨le_refl _, le_refl _, le_refl _⟩
  | cons st tr ih =>
    have h1 := applyStep_mono s st
    have h2 := ih (applyStep s st)
    exact ⟨le_trans h1.1 h2.1, le_trans h1.2.1 h2.2.1, le_trans h1.2.2 h2.2.2⟩

/-! ## Claim C6 — counter invariants -/

/-- C6: after any trace of a match with at most `m` spawns (the spawner loop
performs at most `m`), the sum of the two terminal counters equals exactly
the number of terminal hostile records and is at most `m`; the spawned
counter equals the number of spawn steps and never exceeds `m`; and along
every prefix of the trace all three counters are non-decreasing. -/
theorem counters_invariant :
    ∀ (m : Nat) (tr : List MatchStep), countSpawns tr ≤ m →
      ((runTrace matchStart tr).destroyed + (runTrace matchStart tr).groundHits
        = deadCount (runTrace matchStart tr).enemies) ∧
      ((runTrace matchStart tr).destroyed + (runTrace matchStart tr).groundHits
        ≤ m) ∧
      (runTrace matchStart tr).spawned = countSpawns tr ∧
      (runTrace matchStart tr).spawned ≤ m ∧
      (∀ t1 t2, tr = t1 ++ t2 →
        (runTrace matchStart t1).destroyed ≤ (runTrace matchStart tr).destroyed ∧
        (runTrace matchStart t1).groundHits ≤
          (runTrace matchStart tr).groundHits ∧
        (runTrace matchStart t1).spawned ≤ (runTrace matchStart tr).spawned) := by
  intro m tr hm
  obtain ⟨hlen, hcnt⟩ := matchInv_runTrace matchStart tr matchInv_start
  have hsp := runTrace_spawned matchStart tr
  have h0 : matchStart.spawned = 0 := rfl
  rw [h0] at hsp
  have hdle := deadCount_le_length (runTrace matchStart tr).enemies
  refine ⟨hcnt, by omega, by omega, by omega, ?_⟩
  rintro t1 t2 rfl
  rw [runTrace_append]
  exact runTrace_mono (runTrace matchStart t1) t2

/-- Witness for C6: a two-step trace (one spawn, one interceptor hit on the
spawned hostile at its spawn cell) under `m = 2`. -/
theorem counters_invariant_witness :
    (runTrace matchStart [.spawn 5, .rocketHit 5 1]).destroyed +
      (runTrace matchStart [.spawn 5, .rocketHit 5 1]).groundHits ≤ 2 :=
  (counters_invariant 2 [.spawn 5, .rocketHit 5 1] (by decide)).2.1

/-! ## Claim C7 — serial guarded reload -/

/-- C7: the refill loop visits the slot indices serially, one at a time in
ascending order (the visit trace is exactly `range' i n`); a visit waits
(releasing the lock, modelled by the interference `env`) only when its slot
was empty at scan time, and after the wait it sets the slot loaded only if
the slot is still empty — a slot concurrently filled during the wait is left
exactly as the interference produced it, never loaded again. -/
theorem reload_serial_guarded :
    ∀ (env : Nat → List Bool → List Bool) (i n : Nat) (ls : List Bool),
      ((reloadLoop env i n ls).2.map ReloadVisit.idx = List.range' i n) ∧
      (∀ v ∈ (reloadLoop env i n ls).2,
        (v.waited = none → v.scanned.getD v.idx true = true ∧
          v.result = v.scanned) ∧
        (∀ lw, v.waited = some lw →
          v.scanned.getD v.idx true = false ∧ lw = env v.idx v.scanned ∧
          (lw.getD v.idx true = true → v.result = lw) ∧
          (lw.getD v.idx true = false → v.result = lw.set v.idx true))) := by
  intro env i n ls
  induction n generalizing i ls with
  | zero => simp [reloadLoop]
  | succ n ih =>
    by_cases hg : ls.getD i true = true
    · have hrl : reloadLoop env i (n + 1) ls =
          ((reloadLoop env (i + 1) n ls).1,
            ⟨i, ls, none, ls⟩ :: (reloadLoop env (i + 1) n ls).2) := by
        simp only [reloadLoop, if_pos hg]
      rw [hrl]
      refine ⟨?_, ?_⟩
      · simp only [List.map_cons, (ih (i + 1) ls).1, List.range'_succ]
      · intro v hv
        rcases List.mem_cons.mp hv with hv | hv
        · subst hv
          exact ⟨fun _ => ⟨hg, rfl⟩, fun lw hlw => by cases hlw⟩
        · exact (ih (i + 1) ls).2 v hv
    · have hg0 : ls.getD i true = false := by
        cases h : ls.getD i true
        · rfl
        · exact absurd h hg
      set lw := env i ls with hlw
      set ls' := if lw.getD i true then lw else lw.set i true with hls
      have hrl : reloadLoop env i (n + 1) ls =
          ((reloadLoop env (i + 1) n ls').1,
            ⟨i, ls, some lw, ls'⟩ :: (reloadLoop env (i + 1) n ls').2) := by
        simp only [reloadLoop, hg0]
        rfl
      rw [hrl]
      refine ⟨?_, ?_⟩
      · simp only [List.map_cons, (ih (i + 1) ls').1, List.range'_succ]
      · intro v hv
        rcases List.mem_cons.mp hv with hv | hv
        · subst hv
          refine ⟨(fun hnone => nomatch hnone), fun lw' hlw' => ?_⟩
          have : lw' = lw := (Option.some.inj hlw').symm
          subst this
          refine ⟨hg0, hlw, fun ht => ?_, fun hf => ?_⟩
          · simp only [hls, if_pos ht]
          · simp only [hls, hf]
            rfl
        · exact (ih (i + 1) ls').2 v hv

/-- Witness for C7: one empty slot, interference that leaves it empty during
the wait; the visit loads it. -/
theorem reload_serial_guarded_witness :
    (⟨0, [false], some [false], [true]⟩ : ReloadVisit).result =
      [false].set 0 true :=
  ((((reload_serial_guarded (fun _ s => s) 0 1 [false]).2)
      ⟨0, [false], some [false], [true]⟩ (by decide)).2 [false] rfl).2.2.2 rfl

/-! ## Hostile-actor lemmas (claim C9) -/

/-- The position write-back changes no record's id or aliveness. -/
theorem updateEnemyY_mem (eid y : Int) (es : List Enemy) (e' : Enemy)
    (h : e' ∈ updateEnemyY eid y es) :
    ∃ e ∈ es, e'.id = e.id ∧ e'.alive = e.alive := by
  induction es with
  | nil => simp [updateEnemyY] at h
  | cons e es ih =>
    by_cases hg : (e.id == eid) = true
    · rw [show updateEnemyY eid y (e :: es) = { e with y := y } :: es from by
        simp only [updateEnemyY, if_pos hg]] at h
      rcases List.mem_cons.mp h with h | h
      · subst h
        exact ⟨e, List.mem_cons_self e es, rfl, rfl⟩
      · exact ⟨e', List.mem_cons_of_mem e h, rfl, rfl⟩
    · rw [show updateEnemyY eid y (e :: es) = e :: updateEnemyY eid y es from by
        simp only [updateEnemyY, if_neg hg]] at h
      rcases List.mem_cons.mp h with h | h
      · subst h
        exact ⟨e', List.mem_cons_self e' es, rfl, rfl⟩
      · obtain ⟨e0, he0, h1, h2⟩ := ih h
        exact ⟨e0, List.mem_cons_of_mem e he0, h1, h2⟩

/-- The write-back commutes with looking the record up: the first record
with the actor's id just gets the new `y`. -/
theorem findEnemy_updateEnemyY (eid y : Int) (es : List Enemy) :
    findEnemy eid (updateEnemyY eid y es) =
      (findEnemy eid es).map (fun e => { e with y := y }) := by
  induction es with
  | nil => rfl
  | cons e es ih =>
    by_cases hg : (e.id == eid) = true
    · rw [show updateEnemyY eid y (e :: es) = { e with y := y } :: es from by
        simp only [updateEnemyY, if_pos hg]]
      simp [findEnemy, List.find?_cons, hg]
    · rw [show updateEnemyY eid y (e :: es) = e :: updateEnemyY eid y es from by
        simp only [updateEnemyY, if_neg hg]]
      simp only [findEnemy, List.find?_cons] at ih ⊢
      rw [show (e.id == eid) = false from by simpa using hg] at *
      simpa using ih

/-! ## Claim C9 — a killed hostile's actor never observes the kill -/

/-- C9: the hostile actor's loop tests only its private aliveness copy, so
when the registry record is already dead the actor still runs its full
descent: the ground counter is never incremented (the ground scan finds the
record dead), yet the record's `y` keeps being written back until it reaches
the ground row `H - 2`. -/
theorem dead_enemy_actor_descends_silently :
    ∀ (H eid : Int) (fuel : Nat) (y : Int) (es : List Enemy) (g : Nat),
      (∀ e ∈ es, e.id = eid → e.alive = false) →
      (enemyRun H eid fuel y es g).2 = g ∧
      (y < H - 2 → (H - 2 - y).toNat ≤ fuel →
        findEnemy eid (enemyRun H eid fuel y es g).1 =
          (findEnemy eid es).map (fun e => { e with y := H - 2 })) := by
  intro H eid fuel
  induction fuel with
  | zero =>
    intro y es g hd
    exact ⟨rfl, fun h1 h2 => absurd h2 (by omega)⟩
  | succ fuel ih =>
    intro y es g hd
    have hd' : ∀ e' ∈ updateEnemyY eid (y + 1) es,
        e'.id = eid → e'.alive = false := by
      intro e' he' hid
      obtain ⟨e, he, hide, hal⟩ := updateEnemyY_mem eid (y + 1) es e' he'
      rw [hal]
      exact hd e he (hide ▸ hid)
    by_cases hc : H - 2 ≤ y + 1
    · have hgr := groundScan_allDead eid (updateEnemyY eid (y + 1) es) hd'
      constructor
      · simp only [enemyRun]
        rw [if_pos hc, hgr]
        rfl
      · intro h1 h2
        have hy : y + 1 = H - 2 := by omega
        simp only [enemyRun]
        rw [if_pos hc, hgr]
        simp only [findEnemy_updateEnemyY, hy]
    · constructor
      · simp only [enemyRun]
        rw [if_neg hc]
        exact (ih (y + 1) (updateEnemyY eid (y + 1) es) g hd').1
      · intro h1 h2
        simp only [enemyRun]
        rw [if_neg hc]
        rw [(ih (y + 1) (updateEnemyY eid (y + 1) es) g hd').2
          (by omega) (by omega)]
        rw [findEnemy_updateEnemyY]
        cases findEnemy eid es <;> simp

/-- Witness for C9: a single already-dead record with id 1 at height 5 on a
24-row field; the actor descends to row 22 without touching the ground
counter. -/
theorem dead_enemy_actor_descends_silently_witness :
    (enemyRun 24 1 17 5 [⟨1, 5, 5, false⟩] 0).2 = 0 ∧
    findEnemy 1 (enemyRun 24 1 17 5 [⟨1, 5, 5, false⟩] 0).1 =
      (findEnemy 1 [⟨1, 5, 5, false⟩]).map (fun e => { e with y := 24 - 2 }) :=
  ⟨(dead_enemy_actor_descends_silently 24 1 17 5 [⟨1, 5, 5, false⟩] 0
      (by decide)).1,
   (dead_enemy_actor_descends_silently 24 1 17 5 [⟨1, 5, 5, false⟩] 0
      (by decide)).2 (by decide) (by decide)⟩

/-! ## Rocket-list lemmas (claim C10) -/

/-- The rocket position write-back preserves the list length. -/
theorem updateRocketPos_length (rid x y : Int) (rs : List Rocket) :
    (updateRocketPos rid x y rs).length = rs.length := by
  induction rs with
  | nil => rfl
  | cons r rs ih =>
    by_cases h : (r.id == rid) = true <;> simp [updateRocketPos, h, ih]

/-- Marking a rocket inactive preserves the list length: the record stays. -/
theorem markRocketInactive_length (rid : Int) (rs : List Rocket) :
    (markRocketInactive rid rs).length = rs.length := by
  induction rs with
  | nil => rfl
  | cons r rs ih =>
    by_cases h : (r.id == rid) = true <;> simp [markRocketInactive, h, ih]

/-- Running a rocket-list trace: the length grows by exactly one per fire. -/
theorem runRocketOps_length (ops : List RocketOp) (rs : List Rocket) :
    (runRocketOps rs ops).length = rs.length + countFires ops := by
  induction ops generalizing rs with
  | nil => simp [runRocketOps, countFires]
  | cons op ops ih =>
    cases op with
    | fire r => simp [runRocketOps, countFires, applyRocketOp, ih]; omega
    | updatePos rid x y =>
      simp [runRocketOps, countFires, applyRocketOp, ih, updateRocketPos_length]
    | deactivate rid =>
      simp [runRocketOps, countFires, applyRocketOp, ih, markRocketInactive_length]

/-- Rocket-list traces decompose over append. -/
theorem runRocketOps_append (rs : List Rocket) (ops1 ops2 : List RocketOp) :
    runRocketOps rs (ops1 ++ ops2) = runRocketOps (runRocketOps rs ops1) ops2 := by
  induction ops1 generalizing rs with
  | nil => rfl
  | cons op ops1 ih => simp [runRocketOps, ih]

/-! ## Claim C10 — rocket records are never removed during a match -/

/-- C10: over the operations a match actually performs on the rocket list
(fire `push_back`, position write-back, inactive marking — `removeRocketById`
has no call site), the list length equals exactly the number of successful
fire events, no single operation ever shrinks the list, the length is
non-decreasing along every prefix of the trace, and a terminated rocket is
only marked inactive (the marking keeps the length unchanged). -/
theorem rockets_never_removed :
    (∀ ops, (runRocketOps [] ops).length = countFires ops) ∧
    (∀ rs op, rs.length ≤ (applyRocketOp rs op).length) ∧
    (∀ ops1 ops2,
      (runRocketOps [] ops1).length ≤ (runRocketOps [] (ops1 ++ ops2)).length) ∧
    (∀ rid rs, (markRocketInactive rid rs).length = rs.length) := by
  refine ⟨fun ops => by simpa using runRocketOps_length ops [], ?_, ?_, ?_⟩
  · intro rs op
    cases op with
    | fire r => simp [applyRocketOp]
    | updatePos rid x y => simp [applyRocketOp, updateRocketPos_length]
    | deactivate rid => simp [applyRocketOp, markRocketInactive_length]
  · intro ops1 ops2
    rw [runRocketOps_append, runRocketOps_length ops2 (runRocketOps [] ops1)]
    omega
  · exact fun rid rs => markRocketInactive_length rid rs
